import Mathlib

/-!
Shallow embedding of the element-combining game server (`src/server.js`).

The server is single-process and event-driven: an in-memory registry
`lobbies` maps room codes to room state, and socket events
(`createRoom`, `joinRoom`, `startGame`, `playerChoice`,
`requestNextRound`, disconnect) mutate it and broadcast outbound events.
Here every handler becomes a pure function from the registry (an
association list preserving insertion order, like JS object keys) to the
new registry paired with the list of emitted outbound events.  Every call
to `Math.random()` in the source is modelled by an explicit parameter:
index draws become arbitrary naturals reduced modulo the live range
(`Math.floor(Math.random() * n)` produces exactly the values `k % n`),
and the arbitration oracle outcome becomes an explicit
`OracleAnswer` parameter.
-/

/-- The fixed element catalog (`ELEMENTS` in server.js). -/
def ELEMENTS : List String :=
  ["Fire", "Water", "Earth", "Air", "Lightning", "Ice", "Metal", "Nature", "Shadow", "Light"]

/-- Loop body of `randomElements`: repeatedly pick an index into the shrinking
copy of the pool (`Math.floor(Math.random() * copy.length)` modelled as
`idx % copy.length`), move that element to the result (`copy.splice(idx, 1)`),
stopping after `count` draws or when the copy is exhausted. -/
def drawLoop : List String → Nat → List Nat → List String
  | _, 0, _ => []
  | copy, n + 1, idxs =>
    if h : copy = [] then []
    else
      let i := idxs.headD 0 % copy.length
      copy.get ⟨i, Nat.mod_lt _ (List.length_pos.mpr h)⟩ ::
        drawLoop (copy.eraseIdx i) n idxs.tail

/-- `randomElements(count = 3)` from server.js: draw `count` distinct elements
from the catalog, fewer if the catalog runs out. -/
def randomElements (idxs : List Nat) (count : Nat := 3) : List String :=
  drawLoop ELEMENTS count idxs

/-- A player of a room: socket id, display name, running score. -/
structure Player where
  id : String
  name : String
  score : Nat
deriving Repr, DecidableEq

/-- A pending submission ("ability") accumulated for the round in progress. -/
structure Submission where
  playerId : String
  name : String
  elements : List String
  description : String
  imageUrl : String
  power : Nat
deriving Repr, DecidableEq

/-- The three round types chosen by `startRound`. -/
inductive RoundType
  | standard
  | missing
  | evolution
deriving Repr, DecidableEq

/-- Room state: `{ players, currentRound, roundType, pending }` in server.js. -/
structure Room where
  players : List Player
  currentRound : Nat
  roundType : RoundType
  pending : List Submission
deriving Repr, DecidableEq

/-- The in-memory registry `lobbies`, an insertion-ordered map from room code
to room state. -/
abbrev Lobbies := List (String × Room)

/-- `lobbies[roomCode]` lookup. -/
def getRoom : Lobbies → String → Option Room
  | [], _ => none
  | (c, r) :: rest, code => if c = code then some r else getRoom rest code

/-- `lobbies[roomCode] = room`: replace the entry in place if the key exists,
otherwise append it. -/
def setRoom : Lobbies → String → Room → Lobbies
  | [], code, room => [(code, room)]
  | (c, r) :: rest, code, room =>
    if c = code then (code, room) :: rest else (c, r) :: setRoom rest code room

/-- `delete lobbies[roomCode]`. -/
def deleteRoom : Lobbies → String → Lobbies
  | [], _ => []
  | (c, r) :: rest, code =>
    if c = code then deleteRoom rest code else (c, r) :: deleteRoom rest code

/-- The outbound socket events the server emits, with the payload fields the
claims are about. -/
inductive Emit
  | roomCreated (roomCode : String)
  | errorMessage (msg : String)
  | roomJoined (players : List Player)
  | roundStart (round : Nat) (ty : RoundType) (sets : List (List String))
      (scores : List (String × Nat))
  | battleResult (round : Nat) (winner : String) (abilities : List Submission)
      (scores : List (String × Nat)) (narrative : String)
  | gameOver (scores : List (String × Nat))
  | playerLeft (id : String)
deriving Repr, DecidableEq

/-- `room.players.map(p => ({ name: p.name, score: p.score }))`. -/
def scoresOf (ps : List Player) : List (String × Nat) :=
  ps.map fun p => (p.name, p.score)

/-- The narrative string of `battleResult`. -/
def narrative (a b : Submission) : String :=
  a.name ++ " (" ++ String.intercalate " + " a.elements ++ ") vs " ++
    b.name ++ " (" ++ String.intercalate " + " b.elements ++ ")"

/-- The `createRoom` handler: register a fresh one-player room under the
generated code (the code itself comes from `Math.random`, here a parameter)
and reply `roomCreated` to the sender.  As in JS, assigning to an existing
key overwrites that entry. -/
def createRoom (l : Lobbies) (sid username code : String) : Lobbies × List Emit :=
  (setRoom l code
    { players := [{ id := sid, name := username, score := 0 }]
      currentRound := 0
      roundType := .standard
      pending := [] },
   [.roomCreated code])

/-- The `joinRoom` handler: `errorMessage` to the sender if the code is
unknown, otherwise append the player and broadcast `roomJoined`. -/
def joinRoom (l : Lobbies) (sid username code : String) : Lobbies × List Emit :=
  match getRoom l code with
  | none => (l, [.errorMessage "Room not found"])
  | some room =>
    let room' := { room with players := room.players ++ [{ id := sid, name := username, score := 0 }] }
    (setRoom l code room', [.roomJoined room'.players])

/-- `startRound`: no-op on an unknown code; otherwise increment
`currentRound`, clear `pending`, pick the round type from the uniform draw
(`rand < 0.33` → missing, `< 0.66` → evolution, modelled on a percent scale),
build the element sets, and broadcast `roundStart`.  As in the source, the
two standard sets are drawn first and replaced by fresh draws when the type
is missing or evolution. -/
def startRound (l : Lobbies) (code : String) (typeRand : Nat) (idxs : List Nat) :
    Lobbies × List Emit :=
  match getRoom l code with
  | none => (l, [])
  | some room =>
    let room1 := { room with currentRound := room.currentRound + 1, pending := [] }
    let sets0 := [randomElements idxs, randomElements (idxs.drop 3)]
    let tySets :=
      if typeRand % 100 < 33 then
        (RoundType.missing, [randomElements (idxs.drop 6)])
      else if typeRand % 100 < 66 then
        (RoundType.evolution,
          [randomElements (idxs.drop 6), randomElements (idxs.drop 9),
           randomElements (idxs.drop 12)])
      else
        (RoundType.standard, sets0)
    let room2 := { room1 with roundType := tySets.1 }
    (setRoom l code room2,
     [.roundStart room2.currentRound tySets.1 tySets.2 (scoresOf room2.players)])

/-- `createAIPlayer`: the submission pushed onto `pending` when a lone human
needs an opponent — two independently drawn single elements, the fixed bot
identity, and a pre-assigned random power in `[0,100]`. -/
def createAIPlayer (i j p : Nat) : Submission :=
  let elements := [(randomElements [i] 1).headD "", (randomElements [j] 1).headD ""]
  { playerId := "AI"
    name := "AI Bot"
    elements := elements
    description := "AI uses " ++ String.intercalate " and " elements
    imageUrl := ""
    power := p % 101 }

/-- The oracle interaction of `evaluateAbilities`: the key may be missing or
the request may fail (`unavailable`), the reply may be the literal `A` or
`B`, or anything else (`other`). -/
inductive OracleAnswer
  | unavailable
  | answerA
  | answerB
  | other
deriving Repr, DecidableEq

/-- `evaluateAbilities(a, b)`: both sides get independent baseline randoms in
`[0,100]`; an exact `A` (resp. `B`) answer then overwrites the pick's power
with the other side's power plus one; on a missing key, transport failure or
any other reply both powers stay the independent randoms. -/
def evaluateAbilities (ans : OracleAnswer) (ra rb : Nat) (a b : Submission) :
    Submission × Submission :=
  match ans with
  | .answerA =>
    let b' := { b with power := rb % 101 }
    ({ a with power := b'.power + 1 }, b')
  | .answerB =>
    let a' := { a with power := ra % 101 }
    (a', { b with power := a'.power + 1 })
  | _ => ({ a with power := ra % 101 }, { b with power := rb % 101 })

/-- `room.players.find(p => p.id === socket.id)?.name || 'Unknown'`. -/
def findName : List Player → String → String
  | [], _ => "Unknown"
  | p :: ps, sid => if p.id = sid then p.name else findName ps sid

/-- `const w = room.players.find(p => p.id === winner); if (w) w.score++;` —
increment the score of the first player whose id matches, if any. -/
def incrScore : List Player → String → List Player
  | [], _ => []
  | p :: ps, w =>
    if p.id = w then { p with score := p.score + 1 } :: ps else p :: incrScore ps w

/-- The winner computation of the battle: `'tie'` unless one power is
strictly higher. -/
def resolveWinner (a b : Submission) : String :=
  if b.power < a.power then a.playerId
  else if a.power < b.power then b.playerId
  else "tie"

/-- The score mutation of the battle: no change on a tie, otherwise the first
matching player (if any) gains one point. -/
def applyScore (players : List Player) (winner : String) : List Player :=
  if winner = "tie" then players else incrScore players winner

/-- The random draws consumed by one `playerChoice` event, in source order:
the missing-round padding draw, the three AI-substitute draws, and the
arbitration outcome with its two baseline randoms. -/
structure ChoiceRand where
  padIdx : Nat
  aiI : Nat
  aiJ : Nat
  aiP : Nat
  ans : OracleAnswer
  ra : Nat
  rb : Nat
deriving Repr, DecidableEq

/-- The submission built by the `playerChoice` handler: in a `missing` round
the chosen elements are first padded with one freshly drawn server-side
element, the display name is looked up among the room's players (falling
back to `'Unknown'`), and the power starts at 0. -/
def mkSubmission (room : Room) (sid : String) (elements : List String)
    (description imageUrl : String) (padIdx : Nat) : Submission :=
  let elements' :=
    if room.roundType = .missing then elements ++ [(randomElements [padIdx] 1).headD ""]
    else elements
  { playerId := sid, name := findName room.players sid, elements := elements'
    description := description, imageUrl := imageUrl, power := 0 }

/-- The pending list after `playerChoice` pushes the new submission and, when
the room has exactly one player and the push just made the list a singleton,
also pushes the AI substitute. -/
def appendPending (room : Room) (sub : Submission) (r : ChoiceRand) : List Submission :=
  let p1 := room.pending ++ [sub]
  if room.players.length = 1 ∧ p1.length = 1 then p1 ++ [createAIPlayer r.aiI r.aiJ r.aiP]
  else p1

/-- The resolution step of `playerChoice`: whenever the pending list holds at
least two entries, its first two are evaluated, the winner computed, the
score change applied and `battleResult` broadcast; otherwise the room is
just stored back with the grown pending list. -/
def resolvePending (l : Lobbies) (code : String) (room : Room) (p2 : List Submission)
    (r : ChoiceRand) : Lobbies × List Emit :=
  match p2 with
  | a :: b :: rest =>
    let ab := evaluateAbilities r.ans r.ra r.rb a b
    let winner := resolveWinner ab.1 ab.2
    let players' := applyScore room.players winner
    let room' := { room with players := players', pending := ab.1 :: ab.2 :: rest }
    (setRoom l code room',
     [.battleResult room'.currentRound winner [ab.1, ab.2] (scoresOf players')
        (narrative ab.1 ab.2)])
  | _ =>
    (setRoom l code { room with pending := p2 }, [])

/-- The `playerChoice` handler: silent no-op on an unknown code; otherwise
build the (possibly padded) submission, append it (plus the AI substitute
when due) to `pending`, and resolve when two or more entries are pending. -/
def playerChoice (l : Lobbies) (sid code : String) (elements : List String)
    (description imageUrl : String) (r : ChoiceRand) : Lobbies × List Emit :=
  match getRoom l code with
  | none => (l, [])
  | some room =>
    resolvePending l code room
      (appendPending room (mkSubmission room sid elements description imageUrl r.padIdx) r) r

/-- The `requestNextRound` handler: silent no-op on an unknown code; at
`currentRound >= 5` broadcast `gameOver` and delete the room, otherwise start
the next round. -/
def requestNextRound (l : Lobbies) (code : String) (typeRand : Nat) (idxs : List Nat) :
    Lobbies × List Emit :=
  match getRoom l code with
  | none => (l, [])
  | some room =>
    if 5 ≤ room.currentRound then
      (deleteRoom l code, [.gameOver (scoresOf room.players)])
    else
      startRound l code typeRand idxs

/-- `room.players.findIndex(p => p.id === socket.id)` succeeds. -/
def hasPlayer : List Player → String → Bool
  | [], _ => false
  | p :: ps, sid => if p.id = sid then true else hasPlayer ps sid

/-- `room.players.splice(idx, 1)` at the index found by `findIndex`: remove
the first player whose id matches. -/
def removeFirst : List Player → String → List Player
  | [], _ => []
  | p :: ps, sid => if p.id = sid then ps else p :: removeFirst ps sid

/-- The disconnect handler: scan the live rooms in key order for the first
one holding the departing player; remove the player and broadcast
`playerLeft`; delete the room if it is now empty, append an AI substitute
submission if exactly one player remains; stop after that room. -/
def disconnect (l : Lobbies) (sid : String) (i j p : Nat) : Lobbies × List Emit :=
  match l with
  | [] => ([], [])
  | (code, room) :: rest =>
    if hasPlayer room.players sid then
      let players' := removeFirst room.players sid
      if players'.length = 0 then
        (rest, [.playerLeft sid])
      else if players'.length = 1 then
        ((code, { room with players := players',
                            pending := room.pending ++ [createAIPlayer i j p] }) :: rest,
         [.playerLeft sid])
      else
        ((code, { room with players := players' }) :: rest, [.playerLeft sid])
    else
      let r := disconnect rest sid i j p
      ((code, room) :: r.1, r.2)

/-- The inbound events of the connection gateway, each carrying the random
draws its handler consumes. -/
inductive Event
  | createRoom (sid username code : String)
  | joinRoom (sid username code : String)
  | startGame (code : String) (typeRand : Nat) (idxs : List Nat)
  | playerChoice (sid code : String) (elements : List String)
      (description imageUrl : String) (r : ChoiceRand)
  | requestNextRound (code : String) (typeRand : Nat) (idxs : List Nat)
  | disconnect (sid : String) (i j p : Nat)
deriving Repr

/-- One dispatch step of the gateway. -/
def step (l : Lobbies) : Event → Lobbies × List Emit
  | .createRoom sid username code => createRoom l sid username code
  | .joinRoom sid username code => joinRoom l sid username code
  | .startGame code typeRand idxs => startRound l code typeRand idxs
  | .playerChoice sid code elements description imageUrl r =>
    playerChoice l sid code elements description imageUrl r
  | .requestNextRound code typeRand idxs => requestNextRound l code typeRand idxs
  | .disconnect sid i j p => disconnect l sid i j p

/-- Run a sequence of events from a registry, collecting all emissions. -/
def run (l : Lobbies) : List Event → Lobbies × List Emit
  | [] => (l, [])
  | e :: es =>
    let r1 := step l e
    let r2 := run r1.1 es
    (r2.1, r1.2 ++ r2.2)

/-- Count the `battleResult` broadcasts in an emission list. -/
def countBattles (es : List Emit) : Nat :=
  es.countP fun e => match e with | .battleResult .. => true | _ => false

/-! ### Registry lemmas -/

theorem getRoom_setRoom_self (l : Lobbies) (code : String) (room : Room) :
    getRoom (setRoom l code room) code = some room := by
  induction l with
  | nil => simp [setRoom, getRoom]
  | cons pr rest ih =>
    obtain ⟨c, r⟩ := pr
    by_cases h : c = code
    · simp [setRoom, getRoom, h]
    · simp [setRoom, getRoom, h, ih]

theorem getRoom_setRoom_ne (l : Lobbies) (c0 code : String) (room : Room) (h : c0 ≠ code) :
    getRoom (setRoom l c0 room) code = getRoom l code := by
  induction l with
  | nil => simp [setRoom, getRoom, h]
  | cons pr rest ih =>
    obtain ⟨c, r⟩ := pr
    by_cases hc : c = c0
    · subst hc
      simp [setRoom, getRoom, h]
    · by_cases hcc : c = code <;> simp [setRoom, getRoom, hc, hcc, ih, Ne.symm h]

theorem getRoom_setRoom (l : Lobbies) (c0 code : String) (room : Room) :
    getRoom (setRoom l c0 room) code = if c0 = code then some room else getRoom l code := by
  by_cases h : c0 = code
  · subst h
    simp [getRoom_setRoom_self]
  · simp [h, getRoom_setRoom_ne l c0 code room h]

theorem getRoom_deleteRoom (l : Lobbies) (c0 code : String) :
    getRoom (deleteRoom l c0) code = if c0 = code then none else getRoom l code := by
  induction l with
  | nil => simp [deleteRoom, getRoom]
  | cons pr rest ih =>
    obtain ⟨c, r⟩ := pr
    by_cases hc : c = c0
    · subst hc
      by_cases hcc : c = code
      · subst hcc
        simp [deleteRoom, getRoom, ih]
      · simp [deleteRoom, getRoom, hcc, ih]
    · by_cases hcc : c = code
      · subst hcc
        simp [deleteRoom, getRoom, hc, Ne.symm hc]
      · simp [deleteRoom, getRoom, hc, hcc, ih]

theorem getRoom_eq_none_of_not_mem_keys (l : Lobbies) (code : String)
    (h : code ∉ l.map Prod.fst) : getRoom l code = none := by
  induction l with
  | nil => rfl
  | cons pr rest ih =>
    obtain ⟨c, r⟩ := pr
    simp only [List.map_cons, List.mem_cons, not_or] at h
    have hcc : ¬c = code := fun hc => h.1 hc.symm
    simp [getRoom, hcc, ih h.2]

/-! ### Element-draw lemmas -/

theorem drawLoop_length (n : Nat) (copy : List String) (idxs : List Nat) :
    (drawLoop copy n idxs).length = min n copy.length := by
  induction n generalizing copy idxs with
  | zero => simp [drawLoop]
  | succ n ih =>
    rw [drawLoop]
    split
    · next h => simp [h]
    · next h =>
      have hpos : 0 < copy.length := List.length_pos.mpr h
      have hlt : idxs.headD 0 % copy.length < copy.length := Nat.mod_lt _ hpos
      simp only [List.length_cons, ih]
      rw [List.length_eraseIdx, if_pos hlt]
      omega

theorem drawLoop_subset (n : Nat) (copy : List String) (idxs : List Nat) :
    ∀ x ∈ drawLoop copy n idxs, x ∈ copy := by
  induction n generalizing copy idxs with
  | zero => simp [drawLoop]
  | succ n ih =>
    rw [drawLoop]
    split
    · simp
    · next h =>
      intro x hx
      rcases List.mem_cons.mp hx with rfl | hx
      · exact List.get_mem ..
      · exact (List.eraseIdx_sublist ..).subset (ih _ _ x hx)

theorem drawLoop_nodup (n : Nat) (copy : List String) (idxs : List Nat) (hc : copy.Nodup) :
    (drawLoop copy n idxs).Nodup := by
  induction n generalizing copy idxs with
  | zero => simp [drawLoop]
  | succ n ih =>
    rw [drawLoop]
    split
    · simp
    · next h =>
      have hpos : 0 < copy.length := List.length_pos.mpr h
      have hlt : idxs.headD 0 % copy.length < copy.length := Nat.mod_lt _ hpos
      refine List.nodup_cons.mpr ⟨?_, ih _ _ ((List.eraseIdx_sublist ..).nodup hc)⟩
      intro hmem
      have h1 := drawLoop_subset n (copy.eraseIdx (idxs.headD 0 % copy.length)) idxs.tail _ hmem
      obtain ⟨k, hk, hkne, hkEq⟩ := List.mem_eraseIdx_iff_getElem.mp h1
      rw [List.get_eq_getElem] at hkEq
      exact hkne (hc.getElem_inj_iff.mp hkEq)

theorem drawLoop_perm (n : Nat) (copy : List String) (idxs : List Nat) (hc : copy.Nodup)
    (hn : copy.length ≤ n) : (drawLoop copy n idxs).Perm copy := by
  have hsub : drawLoop copy n idxs ⊆ copy := fun x hx => drawLoop_subset n copy idxs x hx
  refine ((drawLoop_nodup n copy idxs hc).subperm hsub).perm_of_length_le ?_
  rw [drawLoop_length]
  omega

theorem ELEMENTS_nodup : ELEMENTS.Nodup := by decide

/-! ### Score-mutation lemmas -/

theorem incrScore_of_not_mem (ps : List Player) (w : String)
    (h : ∀ q ∈ ps, q.id ≠ w) : incrScore ps w = ps := by
  induction ps with
  | nil => rfl
  | cons p rest ih =>
    simp only [incrScore]
    rw [if_neg (h p (by simp)), ih fun q hq => h q (by simp [hq])]

theorem incrScore_append (p1 : List Player) (p : Player) (p2 : List Player) (w : String)
    (hp : p.id = w) (h1 : ∀ q ∈ p1, q.id ≠ w) :
    incrScore (p1 ++ p :: p2) w = p1 ++ { p with score := p.score + 1 } :: p2 := by
  induction p1 with
  | nil => simp [incrScore, hp]
  | cons q rest ih =>
    simp only [List.cons_append, incrScore, List.append_eq]
    rw [if_neg (h1 q (by simp)), ih fun q' hq' => h1 q' (by simp [hq'])]

/-- C8: for every index stream and every `n`, `randomElements` (the spec's
`drawDistinct`) returns exactly `min n catalogSize` pairwise-distinct
elements, all drawn from the fixed catalog of size 10, and when `n` reaches
or exceeds the catalog size it returns the full catalog (a permutation of
it), without error. -/
theorem C8_drawDistinct_spec (idxs : List Nat) (n : Nat) :
    ELEMENTS.length = 10 ∧
    (randomElements idxs n).length = min n ELEMENTS.length ∧
    (randomElements idxs n).Nodup ∧
    (∀ x ∈ randomElements idxs n, x ∈ ELEMENTS) ∧
    (ELEMENTS.length ≤ n → (randomElements idxs n).Perm ELEMENTS) :=
  ⟨rfl, drawLoop_length n ELEMENTS idxs, drawLoop_nodup n ELEMENTS idxs ELEMENTS_nodup,
   drawLoop_subset n ELEMENTS idxs, fun hn => drawLoop_perm n ELEMENTS idxs ELEMENTS_nodup hn⟩

/-- Witness for C8 at `n = 12 > 10` on a concrete index stream: the draw is a
permutation of the full catalog. -/
theorem C8_drawDistinct_spec_witness :
    ELEMENTS.length ≤ 12 ∧ (randomElements [5, 3, 7] 12).Perm ELEMENTS :=
  ⟨by decide, (C8_drawDistinct_spec [5, 3, 7] 12).2.2.2.2 (by decide)⟩

/-- C9: against an unknown room code, `joinRoom` replies `errorMessage` to
the sender and leaves the registry unchanged, while `startGame` (which
dispatches straight to `startRound`), `playerChoice` and
`requestNextRound` are silent no-ops that leave the registry unchanged and
send nothing. -/
theorem C9_roomNotFound_spec (l : Lobbies) (sid username code : String)
    (elements : List String) (description imageUrl : String) (r : ChoiceRand)
    (typeRand : Nat) (idxs : List Nat) (h : getRoom l code = none) :
    joinRoom l sid username code = (l, [.errorMessage "Room not found"]) ∧
    step l (.startGame code typeRand idxs) = (l, []) ∧
    startRound l code typeRand idxs = (l, []) ∧
    playerChoice l sid code elements description imageUrl r = (l, []) ∧
    requestNextRound l code typeRand idxs = (l, []) := by
  refine ⟨?_, ?_, ?_, ?_, ?_⟩ <;>
    simp [joinRoom, step, startRound, playerChoice, requestNextRound, h]

/-- Witness for C9 on the empty registry. -/
theorem C9_roomNotFound_spec_witness :
    joinRoom [] "s1" "P1" "R" = ([], [.errorMessage "Room not found"]) ∧
    step [] (.startGame "R" 0 []) = ([], []) ∧
    startRound [] "R" 0 [] = ([], []) ∧
    playerChoice [] "s1" "R" [] "" "" ⟨0, 0, 0, 0, .unavailable, 0, 0⟩ = ([], []) ∧
    requestNextRound [] "R" 0 [] = ([], []) :=
  C9_roomNotFound_spec [] "s1" "P1" "R" [] "" "" ⟨0, 0, 0, 0, .unavailable, 0, 0⟩ 0 [] rfl

/-- C2: when resolution consumes submissions A and B, a strictly higher
power wins and the winner is that side's owner id; equal powers give the
`'tie'` sentinel; a tie changes no score; a winner id matching no
registered player (in particular the `'AI'` sentinel) changes no score; a
winner id matching a registered player increments exactly that player's
score by exactly 1. -/
theorem C2_battle_outcome_spec (a b : Submission) (players p1 p2 : List Player)
    (p : Player) (w : String) :
    (b.power < a.power → resolveWinner a b = a.playerId) ∧
    (a.power < b.power → resolveWinner a b = b.playerId) ∧
    (a.power = b.power → resolveWinner a b = "tie") ∧
    applyScore players "tie" = players ∧
    (w ≠ "tie" → (∀ q ∈ players, q.id ≠ w) → applyScore players w = players) ∧
    (w ≠ "tie" → p.id = w → (∀ q ∈ p1, q.id ≠ w) →
      applyScore (p1 ++ p :: p2) w = p1 ++ { p with score := p.score + 1 } :: p2) := by
  refine ⟨?_, ?_, ?_, ?_, ?_, ?_⟩
  · intro h
    simp [resolveWinner, h]
  · intro h
    simp [resolveWinner, h, Nat.lt_asymm h]
  · intro h
    simp [resolveWinner, h]
  · simp [applyScore]
  · intro hw hq
    simp [applyScore, hw, incrScore_of_not_mem players w hq]
  · intro hw hp h1
    simp [applyScore, hw, incrScore_append p1 p p2 w hp h1]

/-- Witness for C2 on concrete submissions and player lists. -/
theorem C2_battle_outcome_spec_witness :
    resolveWinner ⟨"s1", "P1", [], "", "", 5⟩ ⟨"s2", "P2", [], "", "", 3⟩ = "s1" ∧
    resolveWinner ⟨"s1", "P1", [], "", "", 3⟩ ⟨"s2", "P2", [], "", "", 5⟩ = "s2" ∧
    resolveWinner ⟨"s1", "P1", [], "", "", 4⟩ ⟨"s2", "P2", [], "", "", 4⟩ = "tie" ∧
    applyScore [⟨"s1", "P1", 0⟩] "tie" = [⟨"s1", "P1", 0⟩] ∧
    applyScore [⟨"s1", "P1", 0⟩, ⟨"s2", "P2", 2⟩] "AI" = [⟨"s1", "P1", 0⟩, ⟨"s2", "P2", 2⟩] ∧
    applyScore ([⟨"s0", "P0", 2⟩] ++ ⟨"s1", "P1", 1⟩ :: [⟨"s2", "P2", 0⟩]) "s1"
      = [⟨"s0", "P0", 2⟩] ++ ⟨"s1", "P1", 2⟩ :: [⟨"s2", "P2", 0⟩] :=
  ⟨(C2_battle_outcome_spec ⟨"s1", "P1", [], "", "", 5⟩ ⟨"s2", "P2", [], "", "", 3⟩
      [] [] [] ⟨"", "", 0⟩ "").1 (by decide),
   (C2_battle_outcome_spec ⟨"s1", "P1", [], "", "", 3⟩ ⟨"s2", "P2", [], "", "", 5⟩
      [] [] [] ⟨"", "", 0⟩ "").2.1 (by decide),
   (C2_battle_outcome_spec ⟨"s1", "P1", [], "", "", 4⟩ ⟨"s2", "P2", [], "", "", 4⟩
      [] [] [] ⟨"", "", 0⟩ "").2.2.1 rfl,
   (C2_battle_outcome_spec ⟨"s1", "P1", [], "", "", 4⟩ ⟨"s2", "P2", [], "", "", 4⟩
      [⟨"s1", "P1", 0⟩] [] [] ⟨"", "", 0⟩ "").2.2.2.1,
   (C2_battle_outcome_spec ⟨"s1", "P1", [], "", "", 4⟩ ⟨"s2", "P2", [], "", "", 4⟩
      [⟨"s1", "P1", 0⟩, ⟨"s2", "P2", 2⟩] [] [] ⟨"", "", 0⟩ "AI").2.2.2.2.1 (by decide)
      (by decide),
   (C2_battle_outcome_spec ⟨"s1", "P1", [], "", "", 4⟩ ⟨"s2", "P2", [], "", "", 4⟩
      [] [⟨"s0", "P0", 2⟩] [⟨"s2", "P2", 0⟩] ⟨"s1", "P1", 1⟩ "s1").2.2.2.2.2 (by decide)
      rfl (by decide)⟩

/-- C7: an oracle decision for A makes A's power exactly B's power plus one
(both sides having first received their baseline randoms), so the decided
outcome is never a tie — A wins outright; symmetrically for B; when the
oracle is unavailable, fails, or returns any other response, the two powers
are the two independent random draws, each ranging over all of `[0,100]`. -/
theorem C7_evaluateAbilities_spec (a b : Submission) (ra rb : Nat) :
    ((evaluateAbilities .answerA ra rb a b).1.power
      = (evaluateAbilities .answerA ra rb a b).2.power + 1) ∧
    (resolveWinner (evaluateAbilities .answerA ra rb a b).1
      (evaluateAbilities .answerA ra rb a b).2 = a.playerId) ∧
    ((evaluateAbilities .answerB ra rb a b).2.power
      = (evaluateAbilities .answerB ra rb a b).1.power + 1) ∧
    (resolveWinner (evaluateAbilities .answerB ra rb a b).1
      (evaluateAbilities .answerB ra rb a b).2 = b.playerId) ∧
    (evaluateAbilities .unavailable ra rb a b
      = ({ a with power := ra % 101 }, { b with power := rb % 101 })) ∧
    (evaluateAbilities .other ra rb a b = evaluateAbilities .unavailable ra rb a b) ∧
    (evaluateAbilities .unavailable ra rb a b).1.power ≤ 100 ∧
    (evaluateAbilities .unavailable ra rb a b).2.power ≤ 100 ∧
    (∀ pa pb : Nat, pa ≤ 100 → pb ≤ 100 →
      evaluateAbilities .unavailable pa pb a b
        = ({ a with power := pa }, { b with power := pb })) := by
  refine ⟨?_, ?_, ?_, ?_, rfl, rfl, ?_, ?_, ?_⟩
  · simp [evaluateAbilities]
  · simp [evaluateAbilities, resolveWinner]
  · simp [evaluateAbilities]
  · simp [evaluateAbilities, resolveWinner]
  · have := Nat.mod_lt ra (show 0 < 101 by norm_num)
    simpa [evaluateAbilities] using Nat.le_of_lt_succ this
  · have := Nat.mod_lt rb (show 0 < 101 by norm_num)
    simpa [evaluateAbilities] using Nat.le_of_lt_succ this
  · intro pa pb hpa hpb
    simp [evaluateAbilities, Nat.mod_eq_of_lt (show pa < 101 by omega),
      Nat.mod_eq_of_lt (show pb < 101 by omega)]

/-- Witness for C7 on concrete submissions and draws. -/
theorem C7_evaluateAbilities_spec_witness :
    evaluateAbilities .unavailable 7 9 ⟨"s1", "P1", [], "da", "", 0⟩ ⟨"s2", "P2", [], "db", "", 0⟩
      = (⟨"s1", "P1", [], "da", "", 7⟩, ⟨"s2", "P2", [], "db", "", 9⟩) ∧
    resolveWinner
      (evaluateAbilities .answerA 7 9 ⟨"s1", "P1", [], "da", "", 0⟩ ⟨"s2", "P2", [], "db", "", 0⟩).1
      (evaluateAbilities .answerA 7 9 ⟨"s1", "P1", [], "da", "", 0⟩ ⟨"s2", "P2", [], "db", "", 0⟩).2
      = "s1" :=
  ⟨(C7_evaluateAbilities_spec ⟨"s1", "P1", [], "da", "", 0⟩ ⟨"s2", "P2", [], "db", "", 0⟩
      7 9).2.2.2.2.2.2.2.2 7 9 (by decide) (by decide),
   (C7_evaluateAbilities_spec ⟨"s1", "P1", [], "da", "", 0⟩ ⟨"s2", "P2", [], "db", "", 0⟩
      7 9).2.1⟩

/-! ### Evaluation preserves identity and elements -/

theorem evaluateAbilities_playerId (ans : OracleAnswer) (ra rb : Nat) (a b : Submission) :
    (evaluateAbilities ans ra rb a b).1.playerId = a.playerId ∧
    (evaluateAbilities ans ra rb a b).2.playerId = b.playerId := by
  cases ans <;> simp [evaluateAbilities]

theorem evaluateAbilities_elements (ans : OracleAnswer) (ra rb : Nat) (a b : Submission) :
    (evaluateAbilities ans ra rb a b).1.elements = a.elements ∧
    (evaluateAbilities ans ra rb a b).2.elements = b.elements := by
  cases ans <;> simp [evaluateAbilities]

/-! ### Pending-length accounting inside `playerChoice` -/

/-- The length `pending` reaches inside `playerChoice` once the new
submission — and the AI substitute, exactly when the room has one player
and the push just made the list a singleton — has been pushed: the length
at the moment the resolution check runs. -/
def pendingAfterChoice (room : Room) : Nat :=
  if room.players.length = 1 ∧ room.pending = [] then 2 else room.pending.length + 1

theorem appendPending_length (room : Room) (sub : Submission) (r : ChoiceRand) :
    (appendPending room sub r).length = pendingAfterChoice room := by
  simp only [appendPending, pendingAfterChoice, List.length_append, List.length_cons,
    List.length_nil]
  by_cases h1 : room.players.length = 1 <;> by_cases h2 : room.pending = [] <;>
    simp_all [List.length_eq_zero]

theorem resolvePending_count (l : Lobbies) (code : String) (room : Room)
    (p2 : List Submission) (r : ChoiceRand) :
    countBattles (resolvePending l code room p2 r).2 = if 2 ≤ p2.length then 1 else 0 := by
  rcases p2 with _ | ⟨a, _ | ⟨b, rest⟩⟩ <;> simp [resolvePending, countBattles]

theorem resolvePending_getRoom (l : Lobbies) (code : String) (room : Room)
    (p2 : List Submission) (r : ChoiceRand) :
    ∃ room', getRoom (resolvePending l code room p2 r).1 code = some room' ∧
      room'.pending.length = p2.length ∧ room'.currentRound = room.currentRound := by
  rcases p2 with _ | ⟨a, _ | ⟨b, rest⟩⟩ <;> exact ⟨_, getRoom_setRoom_self .., by simp, rfl⟩

theorem resolvePending_currentRound (l : Lobbies) (code c : String) (room : Room)
    (p2 : List Submission) (r : ChoiceRand) (r' : Room)
    (h : getRoom (resolvePending l code room p2 r).1 c = some r') :
    (c ≠ code ∧ getRoom l c = some r') ∨ (c = code ∧ r'.currentRound = room.currentRound) := by
  have key : ∃ rm : Room, (resolvePending l code room p2 r).1 = setRoom l code rm ∧
      rm.currentRound = room.currentRound := by
    rcases p2 with _ | ⟨a, _ | ⟨b, rest⟩⟩ <;> exact ⟨_, rfl, rfl⟩
  obtain ⟨rm, heq, hrnd⟩ := key
  rw [heq, getRoom_setRoom] at h
  by_cases hc : code = c
  · subst hc
    rw [if_pos rfl] at h
    injection h with h
    subst h
    exact Or.inr ⟨rfl, hrnd⟩
  · rw [if_neg hc] at h
    exact Or.inl ⟨fun hcc => hc hcc.symm, h⟩

/-! ### Registry key discipline -/

theorem mem_keys_setRoom (l : Lobbies) (code x : String) (room : Room) :
    x ∈ (setRoom l code room).map Prod.fst ↔ x ∈ l.map Prod.fst ∨ x = code := by
  induction l with
  | nil => simp [setRoom]
  | cons pr rest ih =>
    obtain ⟨c, r⟩ := pr
    by_cases hc : c = code
    · subst hc
      simp [setRoom, or_comm, or_assoc]
    · simp only [setRoom, if_neg hc, List.map_cons, List.mem_cons, ih]
      tauto

theorem keys_setRoom_nodup (l : Lobbies) (code : String) (room : Room)
    (h : (l.map Prod.fst).Nodup) : ((setRoom l code room).map Prod.fst).Nodup := by
  induction l with
  | nil => simp [setRoom]
  | cons pr rest ih =>
    obtain ⟨c, r⟩ := pr
    simp only [List.map_cons, List.nodup_cons] at h
    by_cases hc : c = code
    · subst hc
      simpa [setRoom] using h
    · simp only [setRoom, if_neg hc, List.map_cons, List.nodup_cons]
      refine ⟨?_, ih h.2⟩
      rw [mem_keys_setRoom]
      rintro (hmem | rfl)
      · exact h.1 hmem
      · exact hc rfl

theorem keys_deleteRoom_sublist (l : Lobbies) (code : String) :
    ((deleteRoom l code).map Prod.fst).Sublist (l.map Prod.fst) := by
  induction l with
  | nil => simp [deleteRoom]
  | cons pr rest ih =>
    obtain ⟨c, r⟩ := pr
    by_cases hc : c = code
    · simpa [deleteRoom, hc] using ih.cons c
    · simpa [deleteRoom, hc] using ih.cons₂ c

theorem keys_disconnect_sublist (l : Lobbies) (sid : String) (i j p : Nat) :
    ((disconnect l sid i j p).1.map Prod.fst).Sublist (l.map Prod.fst) := by
  induction l with
  | nil => simp [disconnect]
  | cons pr rest ih =>
    obtain ⟨code, room⟩ := pr
    by_cases hp : hasPlayer room.players sid
    · simp only [disconnect, hp, if_pos]
      by_cases h0 : (removeFirst room.players sid).length = 0
      · simp only [h0, if_pos]
        exact (List.Sublist.refl (rest.map Prod.fst)).cons code
      · by_cases h1 : (removeFirst room.players sid).length = 1 <;>
          simp only [h0, h1, if_pos, if_neg, if_false, List.map_cons] <;>
          exact (List.Sublist.refl (rest.map Prod.fst)).cons₂ code
    · simp only [disconnect, hp, if_neg, Bool.false_eq_true, not_false_iff]
      simpa using ih.cons₂ code

theorem keysNodup_step (l : Lobbies) (e : Event) (h : (l.map Prod.fst).Nodup) :
    ((step l e).1.map Prod.fst).Nodup := by
  cases e with
  | createRoom sid username code => exact keys_setRoom_nodup l code _ h
  | joinRoom sid username code =>
    rcases hg : getRoom l code with _ | room
    · simpa [step, joinRoom, hg] using h
    · simpa [step, joinRoom, hg] using keys_setRoom_nodup l code _ h
  | startGame code typeRand idxs =>
    rcases hg : getRoom l code with _ | room
    · simpa [step, startRound, hg] using h
    · simpa [step, startRound, hg] using keys_setRoom_nodup l code _ h
  | playerChoice sid code elements description imageUrl r =>
    rcases hg : getRoom l code with _ | room
    · simpa [step, playerChoice, hg] using h
    · have key : ∃ rm : Room,
          (resolvePending l code room
            (appendPending room (mkSubmission room sid elements description imageUrl r.padIdx) r)
              r).1 = setRoom l code rm := by
        rcases appendPending room (mkSubmission room sid elements description imageUrl r.padIdx) r
          with _ | ⟨a, _ | ⟨b, rest⟩⟩ <;> exact ⟨_, rfl⟩
      obtain ⟨rm, heq⟩ := key
      simpa [step, playerChoice, hg, heq] using keys_setRoom_nodup l code rm h
  | requestNextRound code typeRand idxs =>
    rcases hg : getRoom l code with _ | room
    · simpa [step, requestNextRound, hg] using h
    · by_cases h5 : 5 ≤ room.currentRound
      · simpa [step, requestNextRound, hg, h5] using
          (keys_deleteRoom_sublist l code).nodup h
      · simpa [step, requestNextRound, hg, h5, startRound] using
          keys_setRoom_nodup l code _ h
  | disconnect sid i j p =>
    exact (keys_disconnect_sublist l sid i j p).nodup h

theorem keysNodup_run (es : List Event) : ((run [] es).1.map Prod.fst).Nodup := by
  have h : ∀ l, (l.map Prod.fst).Nodup → ∀ es0 : List Event,
      ((run l es0).1.map Prod.fst).Nodup := by
    intro l hl es0
    induction es0 generalizing l with
    | nil => simpa [run] using hl
    | cons e rest ih => exact ih (step l e).1 (keysNodup_step l e hl)
  exact h [] (by simp) es

/-! ### Round monotonicity per handler -/

theorem getRoom_cons (c0 : String) (r0 : Room) (rest : Lobbies) (code : String) :
    getRoom ((c0, r0) :: rest) code = if c0 = code then some r0 else getRoom rest code := rfl

theorem joinRoom_currentRound (l : Lobbies) (sid username code c : String) (r' : Room)
    (h : getRoom (joinRoom l sid username code).1 c = some r') :
    ∃ r0, getRoom l c = some r0 ∧ r'.currentRound = r0.currentRound := by
  rcases hg : getRoom l code with _ | room
  · simp only [joinRoom, hg] at h
    exact ⟨r', h, rfl⟩
  · simp only [joinRoom, hg] at h
    rw [getRoom_setRoom] at h
    by_cases hc : code = c
    · subst hc
      rw [if_pos rfl] at h
      injection h with h
      subst h
      exact ⟨room, hg, rfl⟩
    · rw [if_neg hc] at h
      exact ⟨r', h, rfl⟩

theorem startRound_currentRound (l : Lobbies) (code c : String) (typeRand : Nat)
    (idxs : List Nat) (r' : Room)
    (h : getRoom (startRound l code typeRand idxs).1 c = some r') :
    ∃ r0, getRoom l c = some r0 ∧ r0.currentRound ≤ r'.currentRound := by
  rcases hg : getRoom l code with _ | room
  · simp only [startRound, hg] at h
    exact ⟨r', h, le_refl _⟩
  · simp only [startRound, hg] at h
    rw [getRoom_setRoom] at h
    by_cases hc : code = c
    · subst hc
      rw [if_pos rfl] at h
      injection h with h
      subst h
      exact ⟨room, hg, Nat.le_succ _⟩
    · rw [if_neg hc] at h
      exact ⟨r', h, le_refl _⟩

theorem playerChoice_currentRound (l : Lobbies) (sid code c : String) (elements : List String)
    (description imageUrl : String) (r : ChoiceRand) (r' : Room)
    (h : getRoom (playerChoice l sid code elements description imageUrl r).1 c = some r') :
    ∃ r0, getRoom l c = some r0 ∧ r'.currentRound = r0.currentRound := by
  rcases hg : getRoom l code with _ | room
  · simp only [playerChoice, hg] at h
    exact ⟨r', h, rfl⟩
  · simp only [playerChoice, hg] at h
    rcases resolvePending_currentRound _ _ _ _ _ _ _ h with ⟨_, hgc⟩ | ⟨hceq, hrnd⟩
    · exact ⟨r', hgc, rfl⟩
    · subst hceq
      exact ⟨room, hg, hrnd⟩

theorem requestNextRound_currentRound (l : Lobbies) (code c : String) (typeRand : Nat)
    (idxs : List Nat) (r' : Room)
    (h : getRoom (requestNextRound l code typeRand idxs).1 c = some r') :
    ∃ r0, getRoom l c = some r0 ∧ r0.currentRound ≤ r'.currentRound := by
  rcases hg : getRoom l code with _ | room
  · simp only [requestNextRound, hg] at h
    exact ⟨r', h, le_refl _⟩
  · simp only [requestNextRound, hg] at h
    by_cases h5 : 5 ≤ room.currentRound
    · rw [if_pos h5] at h
      simp only at h
      rw [getRoom_deleteRoom] at h
      by_cases hc : code = c
      · rw [if_pos hc] at h
        cases h
      · rw [if_neg hc] at h
        exact ⟨r', h, le_refl _⟩
    · rw [if_neg h5] at h
      exact startRound_currentRound l code c typeRand idxs r' h

theorem disconnect_currentRound (l : Lobbies) (sid : String) (i j p : Nat) (c : String)
    (r' : Room) (hkeys : (l.map Prod.fst).Nodup)
    (h : getRoom (disconnect l sid i j p).1 c = some r') :
    ∃ r0, getRoom l c = some r0 ∧ r'.currentRound = r0.currentRound := by
  induction l with
  | nil => simp [disconnect, getRoom] at h
  | cons pr rest ih =>
    obtain ⟨code, room⟩ := pr
    simp only [List.map_cons, List.nodup_cons] at hkeys
    by_cases hp : hasPlayer room.players sid
    · simp only [disconnect, hp, if_pos] at h
      split_ifs at h with h0 h1
      · simp only at h
        by_cases hc : code = c
        · subst hc
          rw [getRoom_eq_none_of_not_mem_keys rest code hkeys.1] at h
          cases h
        · refine ⟨r', ?_, rfl⟩
          rw [getRoom_cons, if_neg hc]
          exact h
      · simp only [getRoom_cons] at h
        by_cases hc : code = c
        · rw [if_pos hc] at h
          injection h with h
          subst h
          exact ⟨room, by rw [getRoom_cons, if_pos hc], rfl⟩
        · rw [if_neg hc] at h
          exact ⟨r', by rw [getRoom_cons, if_neg hc]; exact h, rfl⟩
      · simp only [getRoom_cons] at h
        by_cases hc : code = c
        · rw [if_pos hc] at h
          injection h with h
          subst h
          exact ⟨room, by rw [getRoom_cons, if_pos hc], rfl⟩
        · rw [if_neg hc] at h
          exact ⟨r', by rw [getRoom_cons, if_neg hc]; exact h, rfl⟩
    · simp only [disconnect, hp, if_neg, Bool.false_eq_true, not_false_iff] at h
      simp only [getRoom_cons] at h
      by_cases hc : code = c
      · rw [if_pos hc] at h
        injection h with h
        subst h
        exact ⟨room, by rw [getRoom_cons, if_pos hc], rfl⟩
      · rw [if_neg hc] at h
        obtain ⟨r0, hr0, hrnd⟩ := ih hkeys.2 h
        exact ⟨r0, by rw [getRoom_cons, if_neg hc]; exact hr0, hrnd⟩

/-- Does this event overwrite the given room code with a brand-new room
(`createRoom` against an already-used code)? -/
def touchesCreate : Event → String → Prop
  | .createRoom _ _ c, code => c = code
  | _, _ => False

theorem step_currentRound_mono (l : Lobbies) (e : Event) (code : String) (r r' : Room)
    (hkeys : (l.map Prod.fst).Nodup) (hnc : ¬ touchesCreate e code)
    (hr : getRoom l code = some r) (hr' : getRoom (step l e).1 code = some r') :
    r.currentRound ≤ r'.currentRound := by
  cases e with
  | createRoom sid username c0 =>
    have hc0 : c0 ≠ code := hnc
    simp only [step, createRoom] at hr'
    rw [getRoom_setRoom, if_neg hc0, hr] at hr'
    injection hr' with hr'
    rw [hr']
  | joinRoom sid username c0 =>
    obtain ⟨r0, hr0, hrnd⟩ := joinRoom_currentRound l sid username c0 code r' hr'
    rw [hr] at hr0
    injection hr0 with hr0
    rw [hrnd, ← hr0]
  | startGame c0 typeRand idxs =>
    obtain ⟨r0, hr0, hle⟩ := startRound_currentRound l c0 code typeRand idxs r' hr'
    rw [hr] at hr0
    injection hr0 with hr0
    rw [← hr0] at hle
    exact hle
  | playerChoice sid c0 elements description imageUrl rc =>
    obtain ⟨r0, hr0, hrnd⟩ :=
      playerChoice_currentRound l sid c0 code elements description imageUrl rc r' hr'
    rw [hr] at hr0
    injection hr0 with hr0
    rw [hrnd, ← hr0]
  | requestNextRound c0 typeRand idxs =>
    obtain ⟨r0, hr0, hle⟩ := requestNextRound_currentRound l c0 code typeRand idxs r' hr'
    rw [hr] at hr0
    injection hr0 with hr0
    rw [← hr0] at hle
    exact hle
  | disconnect sid i j p =>
    obtain ⟨r0, hr0, hrnd⟩ := disconnect_currentRound l sid i j p code r' hkeys hr'
    rw [hr] at hr0
    injection hr0 with hr0
    rw [hrnd, ← hr0]

/-- C3 (amended): along every event sequence from the empty registry, a
surviving room's `currentRound` never decreases across any event other than
a colliding `createRoom` that overwrites its code with a brand-new room;
and `requestNextRound` issued when `currentRound = 5` always broadcasts
`gameOver` and removes the room from the registry, so the subsequent lookup
of that code fails.  (`currentRound` is, however, not bounded by 5:
`startGame` keeps incrementing it past 5 — see the counterexample.) -/
theorem C3_round_monotonicity_spec :
    (∀ (es : List Event) (e : Event) (code : String) (r r' : Room),
      ¬ touchesCreate e code →
      getRoom (run [] es).1 code = some r →
      getRoom (step (run [] es).1 e).1 code = some r' →
      r.currentRound ≤ r'.currentRound) ∧
    (∀ (l : Lobbies) (code : String) (room : Room) (typeRand : Nat) (idxs : List Nat),
      getRoom l code = some room → room.currentRound = 5 →
      requestNextRound l code typeRand idxs
        = (deleteRoom l code, [.gameOver (scoresOf room.players)]) ∧
      getRoom (requestNextRound l code typeRand idxs).1 code = none) := by
  constructor
  · intro es e code r r' hnc hr hr'
    exact step_currentRound_mono (run [] es).1 e code r r' (keysNodup_run es) hnc hr hr'
  · intro l code room typeRand idxs hg h5
    have h5' : 5 ≤ room.currentRound := by omega
    constructor
    · simp only [requestNextRound, hg, if_pos h5']
    · simp only [requestNextRound, hg, if_pos h5']
      rw [getRoom_deleteRoom, if_pos rfl]

/-- Witness for C3: a round increment 0 ≤ 1 across `startGame`, and
`requestNextRound` on a concrete room at round 5 emits `gameOver` and makes
the lookup fail. -/
theorem C3_round_monotonicity_spec_witness :
    (0 : Nat) ≤ (1 : Nat) ∧
    requestNextRound [("R", ⟨[⟨"s1", "P1", 0⟩], 5, .standard, []⟩)] "R" 0 []
      = ([], [.gameOver [("P1", 0)]]) ∧
    getRoom (requestNextRound [("R", ⟨[⟨"s1", "P1", 0⟩], 5, .standard, []⟩)] "R" 0 []).1 "R"
      = none := by
  refine ⟨?_, ?_, ?_⟩
  · exact C3_round_monotonicity_spec.1 [.createRoom "s1" "P1" "R"] (.startGame "R" 70 [])
      "R" ⟨[⟨"s1", "P1", 0⟩], 0, .standard, []⟩ ⟨[⟨"s1", "P1", 0⟩], 1, .standard, []⟩
      (fun h => h) rfl rfl
  · exact (C3_round_monotonicity_spec.2 [("R", ⟨[⟨"s1", "P1", 0⟩], 5, .standard, []⟩)]
      "R" ⟨[⟨"s1", "P1", 0⟩], 5, .standard, []⟩ 0 [] rfl rfl).1
  · exact (C3_round_monotonicity_spec.2 [("R", ⟨[⟨"s1", "P1", 0⟩], 5, .standard, []⟩)]
      "R" ⟨[⟨"s1", "P1", 0⟩], 5, .standard, []⟩ 0 [] rfl rfl).2

/-- Counterexample to C3 as stated: `startGame` has no round bound, so after
`createRoom` and six `startGame` events the room's `currentRound` is 6,
beyond the claimed bound of 5; moreover a colliding `createRoom` resets the
room registered under the code from round 1 back to round 0 — a decrease of
the round observed under that code. -/
theorem C3_counterexample :
    (getRoom (run [] [.createRoom "s1" "P1" "R", .startGame "R" 70 [], .startGame "R" 70 [],
        .startGame "R" 70 [], .startGame "R" 70 [], .startGame "R" 70 [],
        .startGame "R" 70 []]).1 "R").map (fun room => room.currentRound) = some 6 ∧
    (getRoom (run [] [.createRoom "s1" "P1" "R", .startGame "R" 70 []]).1 "R").map
      (fun room => room.currentRound) = some 1 ∧
    (getRoom (run [] [.createRoom "s1" "P1" "R", .startGame "R" 70 [],
        .createRoom "s2" "P2" "R"]).1 "R").map (fun room => room.currentRound) = some 0 :=
  ⟨rfl, rfl, rfl⟩

/-! ### C1: when resolution triggers -/

theorem countBattles_disconnect (l : Lobbies) (sid : String) (i j p : Nat) :
    countBattles (disconnect l sid i j p).2 = 0 := by
  induction l with
  | nil => simp [disconnect, countBattles]
  | cons pr rest ih =>
    obtain ⟨c, room⟩ := pr
    by_cases hp : hasPlayer room.players sid
    · simp only [disconnect, hp, if_pos]
      split_ifs <;> simp [countBattles]
    · simp only [disconnect, hp, if_neg, Bool.false_eq_true, not_false_iff]
      exact ih

/-- C1 (amended): `playerChoice` broadcasts a battle resolution exactly when
the room exists and the post-push pending length (`pendingAfterChoice`,
counting the new submission and the AI substitute spawned exactly when the
lone player's push made pending a singleton) is at least 2 — the stored
pending list then has exactly that length, which is not capped at 2; at
most one `battleResult` is emitted per event; and disconnect-driven AI
injection never triggers a resolution even when it makes pending reach 2. -/
theorem C1_resolution_trigger_spec (l : Lobbies) (sid code : String) (elements : List String)
    (description imageUrl : String) (r : ChoiceRand) (sid2 : String) (i j p : Nat) :
    (∀ room, getRoom l code = some room →
      countBattles (playerChoice l sid code elements description imageUrl r).2
        = (if 2 ≤ pendingAfterChoice room then 1 else 0) ∧
      ∃ room', getRoom (playerChoice l sid code elements description imageUrl r).1 code
          = some room' ∧ room'.pending.length = pendingAfterChoice room) ∧
    (getRoom l code = none →
      playerChoice l sid code elements description imageUrl r = (l, [])) ∧
    countBattles (disconnect l sid2 i j p).2 = 0 := by
  refine ⟨?_, ?_, countBattles_disconnect l sid2 i j p⟩
  · intro room hg
    constructor
    · simp only [playerChoice, hg]
      rw [resolvePending_count, appendPending_length]
    · simp only [playerChoice, hg]
      obtain ⟨room', h1, h2, _⟩ := resolvePending_getRoom l code room _ r
      exact ⟨room', h1, by rw [h2, appendPending_length]⟩
  · intro hg
    simp [playerChoice, hg]

/-- The reachable three-player state used to refute C1 as stated, just
before the third submission of the round arrives. -/
def c1Base : List Event :=
  [.createRoom "s1" "P1" "R", .joinRoom "s2" "P2" "R", .joinRoom "s3" "P3" "R",
   .startGame "R" 70 [],
   .playerChoice "s1" "R" ["Fire"] "d1" "" ⟨0, 0, 0, 0, .unavailable, 5, 3⟩,
   .playerChoice "s2" "R" ["Water"] "d2" "" ⟨0, 0, 0, 0, .unavailable, 5, 3⟩]

/-- The state and emissions after the third submission of the round. -/
def c1Final : Lobbies × List Emit :=
  step (run [] c1Base).1 (.playerChoice "s3" "R" ["Ice"] "d3" "" ⟨0, 0, 0, 0, .unavailable, 5, 3⟩)

/-- Counterexample to C1 as stated: in a reachable three-player room the
third submission of a round re-triggers resolution with the pending list at
length 3 — beyond the claimed bound of 2 — and re-resolves the same first
pair, crediting the round's winner a second time (score 2 after a single
won round). -/
theorem C1_counterexample :
    countBattles c1Final.2 = 1 ∧
    (getRoom c1Final.1 "R").map (fun room => room.pending.length) = some 3 ∧
    (getRoom c1Final.1 "R").map (fun room => scoresOf room.players)
      = some [("P1", 2), ("P2", 0), ("P3", 0)] :=
  ⟨rfl, rfl, rfl⟩

/-! ### C4: the lone-player round -/

/-- C4 (amended): in a room with exactly one player whose pending list is
empty (a freshly started round), a single `playerChoice` brings pending to
length exactly 2 via AI substitution — the stored pair being the human
submission followed by the AI substitute — and produces exactly one
`battleResult`; in general the AI is spawned exactly when the player count
is 1 and the push just made pending a singleton, as recorded by
`pendingAfterChoice` (with prior pending entries the post-choice length is
the old length plus one and can pass 2). -/
theorem C4_lone_player_spec (l : Lobbies) (sid code : String) (elements : List String)
    (description imageUrl : String) (r : ChoiceRand) (room : Room)
    (hg : getRoom l code = some room) :
    ((appendPending room (mkSubmission room sid elements description imageUrl r.padIdx) r).length
      = pendingAfterChoice room) ∧
    (room.players.length = 1 → room.pending = [] →
      ∃ room', getRoom (playerChoice l sid code elements description imageUrl r).1 code
          = some room' ∧
        room'.pending.length = 2 ∧
        room'.pending.map (fun s => s.playerId) = [sid, "AI"] ∧
        countBattles (playerChoice l sid code elements description imageUrl r).2 = 1) := by
  refine ⟨appendPending_length room _ r, ?_⟩
  intro h1 h2
  have happ : appendPending room (mkSubmission room sid elements description imageUrl r.padIdx) r
      = [mkSubmission room sid elements description imageUrl r.padIdx,
         createAIPlayer r.aiI r.aiJ r.aiP] := by
    simp [appendPending, h1, h2]
  simp only [playerChoice, hg, happ, resolvePending]
  refine ⟨_, getRoom_setRoom_self .., by simp, ?_, by simp [countBattles]⟩
  simp only [List.map_cons, List.map_nil]
  rw [(evaluateAbilities_playerId r.ans r.ra r.rb _ _).1,
    (evaluateAbilities_playerId r.ans r.ra r.rb _ _).2]
  simp [mkSubmission, createAIPlayer]

/-- The reachable lone-player state used to refute C4 as stated: the round
has already been resolved once, leaving two entries in `pending`. -/
def c4Base : List Event :=
  [.createRoom "s1" "P1" "R", .startGame "R" 70 [],
   .playerChoice "s1" "R" ["Fire"] "d" "" ⟨0, 0, 0, 0, .unavailable, 5, 3⟩]

/-- Counterexample to C4 as stated: a reachable room with exactly one player
(after its first choice resolved against the AI, pending holding 2 entries)
where one further `playerChoice` leaves pending at length 3, not 2, and no
AI is spawned for it. -/
theorem C4_counterexample :
    (getRoom (run [] c4Base).1 "R").map (fun room => room.players.length) = some 1 ∧
    (getRoom (run [] c4Base).1 "R").map (fun room => room.pending.length) = some 2 ∧
    (getRoom (step (run [] c4Base).1
        (.playerChoice "s1" "R" ["Air"] "d" "" ⟨0, 0, 0, 0, .unavailable, 5, 3⟩)).1 "R").map
      (fun room => room.pending.length) = some 3 :=
  ⟨rfl, rfl, rfl⟩

/-- Witness for C1: in a concrete one-player room a choice resolves exactly
once; a choice against an unknown code does nothing; a concrete disconnect
resolves nothing. -/
theorem C1_resolution_trigger_spec_witness :
    countBattles (playerChoice [("R", ⟨[⟨"s1", "P1", 0⟩], 1, .standard, []⟩)] "s1" "R"
        ["Fire"] "d" "" ⟨0, 0, 0, 0, .unavailable, 5, 3⟩).2 = 1 ∧
    playerChoice [] "s1" "R" ["Fire"] "d" "" ⟨0, 0, 0, 0, .unavailable, 5, 3⟩ = ([], []) ∧
    countBattles (disconnect [("R", ⟨[⟨"s1", "P1", 0⟩], 1, .standard, []⟩)] "s1" 0 0 0).2 = 0 :=
  ⟨((C1_resolution_trigger_spec [("R", ⟨[⟨"s1", "P1", 0⟩], 1, .standard, []⟩)] "s1" "R"
      ["Fire"] "d" "" ⟨0, 0, 0, 0, .unavailable, 5, 3⟩ "s1" 0 0 0).1
      ⟨[⟨"s1", "P1", 0⟩], 1, .standard, []⟩ rfl).1,
   (C1_resolution_trigger_spec [] "s1" "R" ["Fire"] "d" ""
      ⟨0, 0, 0, 0, .unavailable, 5, 3⟩ "s1" 0 0 0).2.1 rfl,
   (C1_resolution_trigger_spec [("R", ⟨[⟨"s1", "P1", 0⟩], 1, .standard, []⟩)] "s1" "R"
      ["Fire"] "d" "" ⟨0, 0, 0, 0, .unavailable, 5, 3⟩ "s1" 0 0 0).2.2⟩

/-- Witness for C4: a concrete lone-player fresh-round choice yields pending
`[human, AI]` of length 2 and exactly one `battleResult`. -/
theorem C4_lone_player_spec_witness :
    ∃ room', getRoom (playerChoice [("R", ⟨[⟨"s1", "P1", 0⟩], 1, .missing, []⟩)] "s1" "R"
        ["Fire", "Water", "Earth"] "d" "" ⟨0, 0, 0, 0, .unavailable, 5, 3⟩).1 "R"
        = some room' ∧
      room'.pending.length = 2 ∧
      room'.pending.map (fun s => s.playerId) = ["s1", "AI"] ∧
      countBattles (playerChoice [("R", ⟨[⟨"s1", "P1", 0⟩], 1, .missing, []⟩)] "s1" "R"
        ["Fire", "Water", "Earth"] "d" "" ⟨0, 0, 0, 0, .unavailable, 5, 3⟩).2 = 1 :=
  (C4_lone_player_spec [("R", ⟨[⟨"s1", "P1", 0⟩], 1, .missing, []⟩)] "s1" "R"
    ["Fire", "Water", "Earth"] "d" "" ⟨0, 0, 0, 0, .unavailable, 5, 3⟩
    ⟨[⟨"s1", "P1", 0⟩], 1, .missing, []⟩ rfl).2 rfl rfl

/-! ### C5 and C10: missing rounds and element counts -/

/-- C5 (amended): a `missing` round's `roundStart` always broadcasts exactly
one element set, of length 3; a submission built by `playerChoice` in a
`missing` round carries the chosen elements plus exactly one
server-appended element (4 when 3 were chosen); and when resolution pairs
two 4-element human submissions, both abilities in `battleResult` show 4
elements.  The claim's "both submissions show 4" fails when one side is the
2-element AI substitute — see the counterexample and C10. -/
theorem C5_missing_round_spec (l : Lobbies) (code sid : String) (typeRand : Nat)
    (idxs : List Nat) (room : Room) (elements : List String)
    (description imageUrl : String) (r : ChoiceRand) (s : Submission) :
    (getRoom l code = some room → typeRand % 100 < 33 →
      ∃ set1, (startRound l code typeRand idxs).2
          = [.roundStart (room.currentRound + 1) .missing [set1] (scoresOf room.players)] ∧
        set1.length = 3) ∧
    (room.roundType = .missing →
      (mkSubmission room sid elements description imageUrl r.padIdx).elements.length
        = elements.length + 1) ∧
    (getRoom l code = some room → room.roundType = .missing → room.pending = [s] →
      s.elements.length = 4 → elements.length = 3 →
      ∃ a b w sc na, (playerChoice l sid code elements description imageUrl r).2
          = [.battleResult room.currentRound w [a, b] sc na] ∧
        a.elements.length = 4 ∧ b.elements.length = 4) := by
  refine ⟨?_, ?_, ?_⟩
  · intro hg h33
    refine ⟨randomElements (idxs.drop 6), ?_, ?_⟩
    · simp only [startRound, hg, if_pos h33]
    · rw [randomElements, drawLoop_length]
      rfl
  · intro hm
    simp [mkSubmission, hm]
  · intro hg hm hpend hslen helen
    have hp2 : appendPending room (mkSubmission room sid elements description imageUrl r.padIdx) r
        = [s, mkSubmission room sid elements description imageUrl r.padIdx] := by
      simp [appendPending, hpend]
    simp only [playerChoice, hg, hp2, resolvePending]
    refine ⟨_, _, _, _, _, rfl, ?_, ?_⟩
    · rw [(evaluateAbilities_elements r.ans r.ra r.rb _ _).1]
      exact hslen
    · rw [(evaluateAbilities_elements r.ans r.ra r.rb _ _).2]
      simp [mkSubmission, hm, helen]

/-- Witness for C5: a concrete `missing` `roundStart` with one set of 3, a
concrete padded submission, and a concrete two-human resolution with 4 and
4 elements. -/
theorem C5_missing_round_spec_witness :
    (∃ set1, (startRound [("R", ⟨[⟨"s1", "P1", 0⟩], 0, .standard, []⟩)] "R" 0 []).2
        = [.roundStart 1 .missing [set1] [("P1", 0)]] ∧ set1.length = 3) ∧
    (∃ a b w sc na,
      (playerChoice [("R", ⟨[⟨"s1", "P1", 0⟩, ⟨"s2", "P2", 0⟩], 1, .missing,
          [⟨"s1", "P1", ["Fire", "Water", "Earth", "Air"], "d1", "", 0⟩]⟩)] "s2" "R"
          ["Ice", "Metal", "Light"] "d2" "" ⟨0, 0, 0, 0, .unavailable, 5, 3⟩).2
        = [.battleResult 1 w [a, b] sc na] ∧
      a.elements.length = 4 ∧ b.elements.length = 4) :=
  ⟨(C5_missing_round_spec [("R", ⟨[⟨"s1", "P1", 0⟩], 0, .standard, []⟩)] "R" "s1" 0 []
      ⟨[⟨"s1", "P1", 0⟩], 0, .standard, []⟩ [] "" "" ⟨0, 0, 0, 0, .unavailable, 5, 3⟩
      ⟨"", "", [], "", "", 0⟩).1 rfl (by decide),
   (C5_missing_round_spec [("R", ⟨[⟨"s1", "P1", 0⟩, ⟨"s2", "P2", 0⟩], 1, .missing,
        [⟨"s1", "P1", ["Fire", "Water", "Earth", "Air"], "d1", "", 0⟩]⟩)] "R" "s2" 0 []
      ⟨[⟨"s1", "P1", 0⟩, ⟨"s2", "P2", 0⟩], 1, .missing,
        [⟨"s1", "P1", ["Fire", "Water", "Earth", "Air"], "d1", "", 0⟩]⟩
      ["Ice", "Metal", "Light"] "d2" "" ⟨0, 0, 0, 0, .unavailable, 5, 3⟩
      ⟨"s1", "P1", ["Fire", "Water", "Earth", "Air"], "d1", "", 0⟩).2.2 rfl rfl rfl
      (by decide) (by decide)⟩

/-- The element counts carried by the abilities of each `battleResult` in an
emission list. -/
def battleElementCounts (es : List Emit) : List (List Nat) :=
  es.filterMap fun e => match e with
    | .battleResult _ _ abilities _ _ => some (abilities.map fun s => s.elements.length)
    | _ => none

/-- The reachable lone-player `missing` round used to refute C5 as stated. -/
def c5Base : List Event := [.createRoom "s1" "P1" "R", .startGame "R" 0 []]

/-- The state and emissions after the lone human's 3-element choice in the
`missing` round. -/
def c5Final : Lobbies × List Emit :=
  step (run [] c5Base).1
    (.playerChoice "s1" "R" ["Fire", "Water", "Earth"] "d" "" ⟨0, 0, 0, 0, .unavailable, 5, 3⟩)

/-- Counterexample to C5 as stated: in a reachable `missing` round the
battle pits the padded 4-element human submission against the 2-element AI
substitute, so the two resolved submissions do NOT both show 4 elements. -/
theorem C5_counterexample :
    (getRoom (run [] c5Base).1 "R").map (fun room => room.roundType)
      = some RoundType.missing ∧
    battleElementCounts c5Final.2 = [[4, 2]] :=
  ⟨rfl, rfl⟩

/-- C10: every AI substitute submission has exactly 2 elements regardless of
round type (it never receives missing-round padding); consequently, in a
`missing` round resolved against the AI substitute the two resolved
submissions show different element counts — 4 for the human who chose 3,
2 for the AI. -/
theorem C10_ai_elements_spec (i j p : Nat) (l : Lobbies) (code sid : String)
    (elements : List String) (description imageUrl : String) (r : ChoiceRand) (room : Room) :
    (createAIPlayer i j p).elements.length = 2 ∧
    (getRoom l code = some room → room.roundType = .missing → room.pending = [] →
      room.players.length = 1 → elements.length = 3 →
      ∃ a b w sc na, (playerChoice l sid code elements description imageUrl r).2
          = [.battleResult room.currentRound w [a, b] sc na] ∧
        a.elements.length = 4 ∧ b.elements.length = 2 ∧ b.playerId = "AI") := by
  refine ⟨by simp [createAIPlayer], ?_⟩
  intro hg hm hpend h1 helen
  have hp2 : appendPending room (mkSubmission room sid elements description imageUrl r.padIdx) r
      = [mkSubmission room sid elements description imageUrl r.padIdx,
         createAIPlayer r.aiI r.aiJ r.aiP] := by
    simp [appendPending, hpend, h1]
  simp only [playerChoice, hg, hp2, resolvePending]
  refine ⟨_, _, _, _, _, rfl, ?_, ?_, ?_⟩
  · rw [(evaluateAbilities_elements r.ans r.ra r.rb _ _).1]
    simp [mkSubmission, hm, helen]
  · rw [(evaluateAbilities_elements r.ans r.ra r.rb _ _).2]
    simp [createAIPlayer]
  · rw [(evaluateAbilities_playerId r.ans r.ra r.rb _ _).2]
    simp [createAIPlayer]

/-- Witness for C10: the lone-player `missing` round resolves a 4-element
human submission against the 2-element AI substitute. -/
theorem C10_ai_elements_spec_witness :
    (createAIPlayer 0 0 0).elements.length = 2 ∧
    (∃ a b w sc na,
      (playerChoice [("R", ⟨[⟨"s1", "P1", 0⟩], 1, .missing, []⟩)] "s1" "R"
          ["Fire", "Water", "Earth"] "d" "" ⟨0, 0, 0, 0, .unavailable, 5, 3⟩).2
        = [.battleResult 1 w [a, b] sc na] ∧
      a.elements.length = 4 ∧ b.elements.length = 2 ∧ b.playerId = "AI") :=
  ⟨(C10_ai_elements_spec 0 0 0 [] "" "" [] "" "" ⟨0, 0, 0, 0, .unavailable, 0, 0⟩
      ⟨[], 0, .standard, []⟩).1,
   (C10_ai_elements_spec 0 0 0 [("R", ⟨[⟨"s1", "P1", 0⟩], 1, .missing, []⟩)] "R" "s1"
      ["Fire", "Water", "Earth"] "d" "" ⟨0, 0, 0, 0, .unavailable, 5, 3⟩
      ⟨[⟨"s1", "P1", 0⟩], 1, .missing, []⟩).2 rfl rfl rfl rfl (by decide)⟩

/-! ### C6: disconnect reconciliation -/

theorem removeFirst_length (ps : List Player) (sid : String) (h : hasPlayer ps sid = true) :
    (removeFirst ps sid).length + 1 = ps.length := by
  induction ps with
  | nil => simp [hasPlayer] at h
  | cons p rest ih =>
    by_cases hp : p.id = sid
    · simp [removeFirst, hp]
    · simp only [hasPlayer, hp, if_false, if_neg, not_false_iff] at h
      simp [removeFirst, hp, ih h]

theorem disconnect_append_skip (l1 rest : Lobbies) (sid : String) (i j p : Nat)
    (h1 : ∀ pr ∈ l1, hasPlayer pr.2.players sid = false) :
    disconnect (l1 ++ rest) sid i j p
      = (l1 ++ (disconnect rest sid i j p).1, (disconnect rest sid i j p).2) := by
  induction l1 with
  | nil => simp [disconnect]
  | cons pr l1' ih =>
    obtain ⟨c, room⟩ := pr
    have hp : hasPlayer room.players sid = false := h1 (c, room) (by simp)
    simp only [List.cons_append, disconnect, hp, Bool.false_eq_true, if_neg, not_false_iff,
      List.append_eq]
    rw [ih fun pr hpr => h1 pr (by simp [hpr])]

/-- C6: on disconnect of a connection that is a player of some room (here
the first such room in registry order: the departing id appears in no
earlier room), that player is removed — exactly one entry leaves the player
list — and `playerLeft` with that id is the only broadcast; if the room
then has zero players it is deleted from the registry; if exactly one
player remains, an AI substitute submission is appended to `pending`.  In
particular, disconnecting the last remaining player deletes the room, and
disconnecting one of two players leaves a one-player room with the AI
injection. -/
theorem C6_disconnect_spec (l1 l2 : Lobbies) (code : String) (room : Room) (sid : String)
    (i j p : Nat)
    (h1 : ∀ pr ∈ l1, hasPlayer pr.2.players sid = false)
    (h2 : hasPlayer room.players sid = true) :
    (disconnect (l1 ++ (code, room) :: l2) sid i j p).2 = [.playerLeft sid] ∧
    (removeFirst room.players sid).length + 1 = room.players.length ∧
    (room.players.length = 1 →
      (disconnect (l1 ++ (code, room) :: l2) sid i j p).1 = l1 ++ l2) ∧
    (room.players.length = 2 →
      (removeFirst room.players sid).length = 1 ∧
      (disconnect (l1 ++ (code, room) :: l2) sid i j p).1
        = l1 ++ (code, { room with
                         players := removeFirst room.players sid,
                         pending := room.pending ++ [createAIPlayer i j p] }) :: l2) ∧
    (3 ≤ room.players.length →
      (disconnect (l1 ++ (code, room) :: l2) sid i j p).1
        = l1 ++ (code, { room with players := removeFirst room.players sid }) :: l2) := by
  have hlen := removeFirst_length room.players sid h2
  have hskip := disconnect_append_skip l1 ((code, room) :: l2) sid i j p h1
  have hD0 : ∀ _ : (removeFirst room.players sid).length = 0,
      disconnect ((code, room) :: l2) sid i j p = (l2, [.playerLeft sid]) := by
    intro h0
    simp only [disconnect]
    rw [if_pos h2, if_pos h0]
  have hD1 : (removeFirst room.players sid).length ≠ 0 →
      (removeFirst room.players sid).length = 1 →
      disconnect ((code, room) :: l2) sid i j p
        = ((code, { room with
                    players := removeFirst room.players sid,
                    pending := room.pending ++ [createAIPlayer i j p] }) :: l2,
           [.playerLeft sid]) := by
    intro h0 hl1
    simp only [disconnect]
    rw [if_pos h2, if_neg h0, if_pos hl1]
  have hD2 : (removeFirst room.players sid).length ≠ 0 →
      (removeFirst room.players sid).length ≠ 1 →
      disconnect ((code, room) :: l2) sid i j p
        = ((code, { room with players := removeFirst room.players sid }) :: l2,
           [.playerLeft sid]) := by
    intro h0 hl1
    simp only [disconnect]
    rw [if_pos h2, if_neg h0, if_neg hl1]
  refine ⟨?_, hlen, ?_, ?_, ?_⟩
  · rw [hskip]
    by_cases h0 : (removeFirst room.players sid).length = 0
    · rw [hD0 h0]
    · by_cases hl1 : (removeFirst room.players sid).length = 1
      · rw [hD1 h0 hl1]
      · rw [hD2 h0 hl1]
  · intro hone
    have h0 : (removeFirst room.players sid).length = 0 := by omega
    rw [hskip, hD0 h0]
  · intro htwo
    have hl1 : (removeFirst room.players sid).length = 1 := by omega
    refine ⟨hl1, ?_⟩
    rw [hskip, hD1 (by omega) hl1]
  · intro hthree
    rw [hskip, hD2 (by omega) (by omega)]

/-- Witness for C6: disconnecting the lone player of a concrete room deletes
the room; disconnecting one of two players leaves a one-player room with
the AI substitute appended. -/
theorem C6_disconnect_spec_witness :
    (disconnect [("R", ⟨[⟨"s1", "P1", 0⟩], 1, .standard, []⟩)] "s1" 0 0 0).2
      = [.playerLeft "s1"] ∧
    (disconnect [("R", ⟨[⟨"s1", "P1", 0⟩], 1, .standard, []⟩)] "s1" 0 0 0).1 = [] ∧
    (disconnect [("R", ⟨[⟨"s1", "P1", 3⟩, ⟨"s2", "P2", 1⟩], 2, .standard, []⟩)] "s2" 0 0 0).1
      = [("R", ⟨[⟨"s1", "P1", 3⟩], 2, .standard, [createAIPlayer 0 0 0]⟩)] :=
  ⟨(C6_disconnect_spec [] [] "R" ⟨[⟨"s1", "P1", 0⟩], 1, .standard, []⟩ "s1" 0 0 0
      (by simp) rfl).1,
   (C6_disconnect_spec [] [] "R" ⟨[⟨"s1", "P1", 0⟩], 1, .standard, []⟩ "s1" 0 0 0
      (by simp) rfl).2.2.1 rfl,
   ((C6_disconnect_spec [] [] "R" ⟨[⟨"s1", "P1", 3⟩, ⟨"s2", "P2", 1⟩], 2, .standard, []⟩
      "s2" 0 0 0 (by simp) (by decide)).2.2.2.1 rfl).2⟩
